import Mathlib

/-!
Shallow embedding of the ray tracer's core (vector algebra, intervals,
axis-aligned bounding boxes, primitives, BVH, materials, camera integrator,
and the render worker's tone-mapping step), together with theorems settling
the specification claims.

Modelling conventions:
* `f64` scalars are modelled as exact rationals (`ℚ`).  Decimal literals of
  the source (`0.000001`, `0.00001`, `255.0`) are read as exact rationals.
  `f64::MAX` is the exact rational value of the largest finite double,
  `(2^53 - 1) * 2^971`.
* `f64::sqrt` is not rational-valued, so every function that calls it takes
  an explicit square-root oracle `sq : ℚ → ℚ`; theorems that depend on the
  root being exact hypothesise `sq d * sq d = d` at the discriminant they
  use, and concrete witnesses instantiate `sq` with an exact square root.
* `rand::thread_rng` draws are threaded as explicit parameters (a single
  sampled unit vector for `Diffuse::scatter`, a stream `ℕ → Vec3f` for the
  recursive integrator).
* Rust's `as u8` float-to-integer cast is a saturating cast (round toward
  zero, clamp to the target range, Rust reference "Type cast expressions");
  it is modelled by `asU8`.
-/

namespace Raytracer

/-- Exact rational value of Rust's `f64::MAX`. -/
def f64MAX : ℚ := (2 ^ 53 - 1) * 2 ^ 971

/-- Exact rational value of Rust's `f64::MIN` (`-f64::MAX`). -/
def f64MIN : ℚ := -f64MAX

/-- `Vec3f` (src/geometry/vec3f.rs): a 3-component vector of `f64`. -/
structure Vec3f where
  x : ℚ
  y : ℚ
  z : ℚ
  deriving DecidableEq, Repr

instance : Add Vec3f :=
  ⟨fun a b => ⟨a.x + b.x, a.y + b.y, a.z + b.z⟩⟩

instance : Sub Vec3f :=
  ⟨fun a b => ⟨a.x - b.x, a.y - b.y, a.z - b.z⟩⟩

/-- Componentwise (Hadamard) product, `impl Mul for Vec3f`. -/
instance : Mul Vec3f :=
  ⟨fun a b => ⟨a.x * b.x, a.y * b.y, a.z * b.z⟩⟩

/-- Scalar product on the right, `impl Mul<f64> for Vec3f`. -/
instance : HMul Vec3f ℚ Vec3f :=
  ⟨fun a s => ⟨a.x * s, a.y * s, a.z * s⟩⟩

/-- Scalar division, `impl Div<f64> for Vec3f`. -/
instance : HDiv Vec3f ℚ Vec3f :=
  ⟨fun a s => ⟨a.x / s, a.y / s, a.z / s⟩⟩

/-- `Vec3f::dot`. -/
def Vec3f.dot (a b : Vec3f) : ℚ :=
  a.x * b.x + a.y * b.y + a.z * b.z

/-- `Vec3f::cross`. -/
def Vec3f.cross (a b : Vec3f) : Vec3f :=
  ⟨a.y * b.z - a.z * b.y, a.z * b.x - a.x * b.z, a.x * b.y - a.y * b.x⟩

/-- `Vec3f::lengthsq`. -/
def Vec3f.lengthsq (v : Vec3f) : ℚ :=
  v.x * v.x + v.y * v.y + v.z * v.z

/-- `Vec3f::reflect`: mirror reflection about a normal. -/
def Vec3f.reflect (v normal : Vec3f) : Vec3f :=
  v - normal * (2 * Vec3f.dot v normal)

/-- `Vec3f::length`, with the square root taken from the oracle `sq`. -/
def Vec3f.lengthS (sq : ℚ → ℚ) (v : Vec3f) : ℚ :=
  sq v.lengthsq

/-- `Vec3f::unit`, with the square root taken from the oracle `sq`. -/
def Vec3f.unitS (sq : ℚ → ℚ) (v : Vec3f) : Vec3f :=
  v / Vec3f.lengthS sq v

/-- `Index<usize> for Vec3f`: component access by axis index. -/
def Vec3f.nth (v : Vec3f) : Fin 3 → ℚ
  | ⟨0, _⟩ => v.x
  | ⟨1, _⟩ => v.y
  | ⟨_ + 2, _⟩ => v.z

/-- `Interval` (src/geometry/interval.rs): a scalar range. -/
structure Interval where
  min : ℚ
  max : ℚ
  deriving DecidableEq, Repr

/-- `Interval::new_ray`: the ray-query interval `[0.000001, f64::MAX]`. -/
def Interval.newRay : Interval :=
  ⟨1 / 1000000, f64MAX⟩

/-- `Interval::from_intervals`: the hull of two intervals. -/
def Interval.fromIntervals (i0 i1 : Interval) : Interval :=
  ⟨Min.min i0.min i1.min, Max.max i0.max i1.max⟩

/-- `Interval::expand`: symmetric expansion by `delta`. -/
def Interval.expand (i : Interval) (delta : ℚ) : Interval :=
  ⟨i.min - delta / 2, i.max + delta / 2⟩

/-- `Interval::size`. -/
def Interval.size (i : Interval) : ℚ :=
  i.max - i.min

/-- `Interval::surrounds`: the strict membership test `min < x && x < max`. -/
def Interval.surrounds (i : Interval) (x : ℚ) : Bool :=
  decide (i.min < x) && decide (x < i.max)

/-- `Interval::contains`, exactly as written in the source:
`self.min <= x && self.max <= self.max` (the second conjunct compares
`max` with itself). -/
def Interval.contains (i : Interval) (x : ℚ) : Bool :=
  decide (i.min ≤ x) && decide (i.max ≤ i.max)

/-- `Aabb3d` (src/geometry/aabb3d.rs): the per-axis interval triple
`bounds: [Interval; 3]`, modelled as three named fields. -/
structure Aabb3d where
  b0 : Interval
  b1 : Interval
  b2 : Interval
  deriving DecidableEq, Repr

/-- Axis indexing into the interval triple (`self.bounds[a]`). -/
def Aabb3d.bound (b : Aabb3d) : Fin 3 → Interval
  | ⟨0, _⟩ => b.b0
  | ⟨1, _⟩ => b.b1
  | ⟨_ + 2, _⟩ => b.b2

/-- `Aabb3d::from_intervals`. -/
def Aabb3d.fromIntervals (ix iy iz : Interval) : Aabb3d :=
  ⟨ix, iy, iz⟩

/-- `Aabb3d::from_corners`: per-axis min/max of two corner points. -/
def Aabb3d.fromCorners (c0 c1 : Vec3f) : Aabb3d :=
  ⟨⟨min c0.x c1.x, max c0.x c1.x⟩,
   ⟨min c0.y c1.y, max c0.y c1.y⟩,
   ⟨min c0.z c1.z, max c0.z c1.z⟩⟩

/-- `Aabb3d::from_bounds`: per-axis hull of two boxes. -/
def Aabb3d.fromBounds (bounds0 bounds1 : Aabb3d) : Aabb3d :=
  ⟨Interval.fromIntervals bounds0.b0 bounds1.b0,
   Interval.fromIntervals bounds0.b1 bounds1.b1,
   Interval.fromIntervals bounds0.b2 bounds1.b2⟩

/-- `Aabb3d::pad`: any axis interval narrower than `DELTA = 0.00001` is
symmetrically expanded by `DELTA`. -/
def Aabb3d.pad (bounds : Aabb3d) : Aabb3d :=
  let DELTA : ℚ := 1 / 100000
  ⟨if DELTA ≤ bounds.b0.size then bounds.b0 else bounds.b0.expand DELTA,
   if DELTA ≤ bounds.b1.size then bounds.b1 else bounds.b1.expand DELTA,
   if DELTA ≤ bounds.b2.size then bounds.b2 else bounds.b2.expand DELTA⟩

/-- `Aabb3d::lt`: order two boxes by the chosen axis interval's `min`. -/
def Aabb3d.lt (lhs rhs : Aabb3d) (axis : Fin 3) : Bool :=
  decide ((lhs.bound axis).min < (rhs.bound axis).min)

/-- `Aabb3d::default`: every axis interval is `Interval::new(0.0, 0.0)`. -/
def Aabb3d.default : Aabb3d :=
  ⟨⟨0, 0⟩, ⟨0, 0⟩, ⟨0, 0⟩⟩

/-- `Ray` (src/geometry/interval.rs): origin and direction. -/
structure Ray where
  origin : Vec3f
  direction : Vec3f
  deriving DecidableEq, Repr

/-- `Ray::at`: `origin + direction * t` (written `direction * t + origin`
in the source). -/
def Ray.pointAt (r : Ray) (t : ℚ) : Vec3f :=
  r.direction * t + r.origin

/-- One body of the per-axis slab loop of `Aabb3d::hit`, followed by the
rest of the loop; `none`-like early exit is the `false` return. -/
def aabbHitLoop (b : Aabb3d) (r : Ray) : List (Fin 3) → ℚ → ℚ → Bool
  | [], _, _ => true
  | a :: rest, imin, imax =>
    let invD := 1 / r.direction.nth a
    let t0 := ((b.bound a).min - r.origin.nth a) * invD
    let t1 := ((b.bound a).max - r.origin.nth a) * invD
    let p := if invD < 0 then (t1, t0) else (t0, t1)
    let imin' := if imin < p.1 then p.1 else imin
    let imax' := if p.2 < imax then p.2 else imax
    if imax' ≤ imin' then false else aabbHitLoop b r rest imin' imax'

/-- `Aabb3d::hit`: the three-slab test with short-circuit `false`. -/
def Aabb3d.hit (b : Aabb3d) (r : Ray) (interval : Interval) : Bool :=
  aabbHitLoop b r [0, 1, 2] interval.min interval.max

/-- Rust's `f64::round`: round half away from zero. -/
def f64round (x : ℚ) : ℤ :=
  if x < 0 then -Int.floor (-x + 1 / 2) else Int.floor (x + 1 / 2)

/-- `Texture` trait objects (src/texture.rs), as a closed sum of the
variants the scenes build: `SolidColor` and `CheckerTexture`.  (The
`ImageTexture` variant wraps an externally decoded raster and is out of
the modelled core.) -/
inductive Texture where
  | solidColor (value : Vec3f)
  | checker (evenColor oddColor : Vec3f) (scale : ℚ)
  deriving DecidableEq, Repr

/-- `Texture::value`. -/
def Texture.value (t : Texture) (u v : ℚ) (_point : Vec3f) : Vec3f :=
  match t with
  | .solidColor value => value
  | .checker evenColor oddColor scale =>
    let ix := f64round (u * scale)
    let iy := f64round (v * scale)
    if (ix + iy) % 2 = 0 then evenColor else oddColor

/-- `Material` trait objects (src/material.rs): `Diffuse`, `Metal`,
`DiffuseLight`. -/
inductive Material where
  | diffuse (albedo : Texture)
  | metal (albedo : Texture)
  | diffuseLight (emitTex : Texture)
  deriving DecidableEq, Repr

/-- `HitResult` (src/geometry/interval.rs). -/
structure HitResult where
  point : Vec3f
  normal : Vec3f
  t : ℚ
  material : Material
  u : ℚ
  v : ℚ
  deriving DecidableEq, Repr

/-- `Material::scatter`; `rand` is the unit vector `Vec3f::rand()` would
have drawn (only `Diffuse` consumes it). -/
def Material.scatter (m : Material) (rand : Vec3f) (ray : Ray)
    (hitResult : HitResult) : Option (Vec3f × Ray) :=
  match m with
  | .diffuse albedo =>
    some (albedo.value hitResult.u hitResult.v hitResult.point,
      ⟨hitResult.point, hitResult.normal + rand⟩)
  | .metal albedo =>
    some (albedo.value hitResult.u hitResult.v hitResult.point,
      ⟨hitResult.point, Vec3f.reflect ray.direction hitResult.normal⟩)
  | .diffuseLight _ => none

/-- `Material::emit`: the default returns black; `DiffuseLight` overrides
it with its texture sampled at `(u, v)` and the zero point. -/
def Material.emit (m : Material) (u v : ℚ) : Vec3f :=
  match m with
  | .diffuseLight emitTex => emitTex.value u v ⟨0, 0, 0⟩
  | _ => ⟨0, 0, 0⟩

/-- The local `oc` of `Sphere::hit`: `ray.origin - self.center`. -/
def sphereOc (center : Vec3f) (ray : Ray) : Vec3f :=
  ray.origin - center

/-- The local `a` of `Sphere::hit`: `ray.direction.lengthsq()`. -/
def sphereA (ray : Ray) : ℚ :=
  ray.direction.lengthsq

/-- The local `half_b` of `Sphere::hit`: `dot(oc, ray.direction)`. -/
def sphereHalfB (center : Vec3f) (ray : Ray) : ℚ :=
  Vec3f.dot (sphereOc center ray) ray.direction

/-- The local `c` of `Sphere::hit`: `oc.lengthsq() - radius * radius`. -/
def sphereCq (center : Vec3f) (radius : ℚ) (ray : Ray) : ℚ :=
  (sphereOc center ray).lengthsq - radius * radius

/-- The local `d` of `Sphere::hit`: the quadratic discriminant
`half_b * half_b - a * c`. -/
def sphereDisc (center : Vec3f) (radius : ℚ) (ray : Ray) : ℚ :=
  sphereHalfB center ray * sphereHalfB center ray -
    sphereA ray * sphereCq center radius ray

/-- The first candidate root of `Sphere::hit`: `(-half_b - sqrtd) / a`. -/
def sphereRoot0 (sq : ℚ → ℚ) (center : Vec3f) (radius : ℚ) (ray : Ray) : ℚ :=
  (-sphereHalfB center ray - sq (sphereDisc center radius ray)) / sphereA ray

/-- The fallback root of `Sphere::hit`: `(-half_b + sqrtd) / a`. -/
def sphereRoot1 (sq : ℚ → ℚ) (center : Vec3f) (radius : ℚ) (ray : Ray) : ℚ :=
  (-sphereHalfB center ray + sq (sphereDisc center radius ray)) / sphereA ray

/-- The `HitResult` payload `Sphere::hit` builds at parameter `root`. -/
def sphereResult (center : Vec3f) (radius : ℚ) (material : Material) (ray : Ray)
    (root : ℚ) : HitResult :=
  let point := ray.pointAt root
  ⟨point, (point - center) / radius, root, material, 0, 0⟩

/-- `Sphere::hit` (src/geometry/sphere.rs); `sq` stands for `f64::sqrt`,
and the code's `let`-bound locals are the named definitions above. -/
def sphereHit (sq : ℚ → ℚ) (center : Vec3f) (radius : ℚ) (material : Material)
    (interval : Interval) (ray : Ray) : Option HitResult :=
  if sphereDisc center radius ray < 0 then none
  else if interval.surrounds (sphereRoot0 sq center radius ray) then
    some (sphereResult center radius material ray (sphereRoot0 sq center radius ray))
  else if interval.surrounds (sphereRoot1 sq center radius ray) then
    some (sphereResult center radius material ray (sphereRoot1 sq center radius ray))
  else none

/-- `Plane::hit` (src/geometry/plane.rs). -/
def planeHit (normal xbasis ybasis point : Vec3f) (material : Material)
    (interval : Interval) (ray : Ray) : Option HitResult :=
  let po := point - ray.origin
  let t := Vec3f.dot po normal / Vec3f.dot ray.direction normal
  let hitPoint := ray.pointAt t
  let offset := hitPoint - point
  if interval.surrounds t then
    some ⟨hitPoint, normal, t, material, Vec3f.dot xbasis offset,
      Vec3f.dot ybasis offset⟩
  else none

/-- `Uv` (src/geometry/triangle.rs): a texture coordinate pair. -/
structure Uv where
  u : ℚ
  v : ℚ
  deriving DecidableEq, Repr

instance : Add Uv :=
  ⟨fun a b => ⟨a.u + b.u, a.v + b.v⟩⟩

/-- Scalar product, `impl Mul<f64> for Uv`. -/
instance : HMul Uv ℚ Uv :=
  ⟨fun a s => ⟨a.u * s, a.v * s⟩⟩

/-- `Triangle::hit` (src/geometry/triangle.rs): Möller–Trumbore-style test
with back-face culling; `sq` is used only by `normal.unit()`. -/
def triangleHit (sq : ℚ → ℚ) (a ab ac : Vec3f) (uv_a uv_b uv_c : Uv)
    (normal : Vec3f) (material : Material) (interval : Interval) (ray : Ray) :
    Option HitResult :=
  let d := -Vec3f.dot normal ray.direction
  if d ≤ 0 then none
  else
    let ap := ray.origin - a
    let t := Vec3f.dot ap normal / d
    if !interval.contains t then none
    else
      let e := Vec3f.cross (ray.direction * ((-1 : ℚ))) ap
      let v := Vec3f.dot ac e / d
      if v < 0 ∨ 1 < v then none
      else
        let w := -Vec3f.dot ab e / d
        if w < 0 ∨ 1 < v + w then none
        else
          let u := 1 - v - w
          let uv := uv_a * u + uv_b * v + uv_c * w
          some ⟨ray.pointAt t, Vec3f.unitS sq normal, t, material, uv.u, uv.v⟩

/-- `dyn Hittable` trait objects: the primitives and `Bvh` (src/mesh.rs)
as a closed sum.  `HittableGroup` keeps its own struct below, as in the
source. -/
inductive Hittable where
  | sphere (center : Vec3f) (radius : ℚ) (material : Material) (bounds : Aabb3d)
  | plane (normal xbasis ybasis point : Vec3f) (material : Material)
      (bounds : Aabb3d)
  | triangle (a ab ac : Vec3f) (uv_a uv_b uv_c : Uv) (normal : Vec3f)
      (material : Material) (bounds : Aabb3d)
  | bvh (bounds : Aabb3d) (left right : Hittable)
  deriving DecidableEq, Repr

/-- `Hittable::bounds`. -/
def Hittable.boundsOf : Hittable → Aabb3d
  | .sphere _ _ _ bounds => bounds
  | .plane _ _ _ _ _ bounds => bounds
  | .triangle _ _ _ _ _ _ _ _ bounds => bounds
  | .bvh bounds _ _ => bounds

/-- `Sphere::new`: caches the bounding box spanned by `center ± radius`. -/
def Sphere.new (center : Vec3f) (radius : ℚ) (material : Material) : Hittable :=
  let rv : Vec3f := ⟨radius, radius, radius⟩
  .sphere center radius material (Aabb3d.fromCorners (center - rv) (center + rv))

/-- `Plane::new`: caches the all-space box and the unit cross-product
normal. -/
def Plane.new (sq : ℚ → ℚ) (xbasis ybasis point : Vec3f)
    (material : Material) : Hittable :=
  .plane (Vec3f.unitS sq (Vec3f.cross xbasis ybasis)) xbasis ybasis point
    material (Aabb3d.fromCorners ⟨f64MIN, f64MIN, f64MIN⟩ ⟨f64MAX, f64MAX, f64MAX⟩)

/-- `Triangle::new`: caches edge vectors, the un-normalized cross-product
normal and the padded vertex bounding box. -/
def Triangle.new (a b c : Vec3f) (uv_a uv_b uv_c : Uv)
    (material : Material) : Hittable :=
  let ab := b - a
  let ac := c - a
  let lo : Vec3f := ⟨Min.min (Min.min a.x b.x) c.x, Min.min (Min.min a.y b.y) c.y,
    Min.min (Min.min a.z b.z) c.z⟩
  let hi : Vec3f := ⟨Max.max (Max.max a.x b.x) c.x, Max.max (Max.max a.y b.y) c.y,
    Max.max (Max.max a.z b.z) c.z⟩
  .triangle a ab ac uv_a uv_b uv_c (Vec3f.cross ab ac) material
    (Aabb3d.pad (Aabb3d.fromCorners lo hi))

/-- `Hittable::hit` dispatch, including `Bvh::hit` (src/mesh.rs lines
65-88): prune on the node box, query left, query right with the interval
tightened to the left hit's `t`, and return the left hit whenever it
exists. -/
def Hittable.hit (sq : ℚ → ℚ) : Hittable → Interval → Ray → Option HitResult
  | .sphere center radius material _, interval, ray =>
    sphereHit sq center radius material interval ray
  | .plane normal xbasis ybasis point material _, interval, ray =>
    planeHit normal xbasis ybasis point material interval ray
  | .triangle a ab ac uv_a uv_b uv_c normal material _, interval, ray =>
    triangleHit sq a ab ac uv_a uv_b uv_c normal material interval ray
  | .bvh bounds left right, interval, ray =>
    if !bounds.hit ray interval then none
    else
      let hitLeft := Hittable.hit sq left interval ray
      let hitRight := Hittable.hit sq right
        ⟨interval.min,
          match hitLeft with
          | some hit => hit.t
          | none => interval.max⟩ ray
      if hitLeft.isSome then hitLeft else hitRight

/-- `Bvh::new`, two-object branch: order the children by box minimum on
the chosen axis and take the hull of their boxes. -/
def Bvh.new2 (axis : Fin 3) (obj0 obj1 : Hittable) : Hittable :=
  if Aabb3d.lt obj0.boundsOf obj1.boundsOf axis then
    .bvh (Aabb3d.fromBounds obj0.boundsOf obj1.boundsOf) obj0 obj1
  else
    .bvh (Aabb3d.fromBounds obj1.boundsOf obj0.boundsOf) obj1 obj0

/-- `HittableGroup` (src/geometry/interval.rs). -/
structure HittableGroup where
  group : List Hittable
  bounds : Aabb3d
  deriving DecidableEq, Repr

/-- `HittableGroup::new`: empty members, `Aabb3d::default()` bounds. -/
def HittableGroup.new : HittableGroup :=
  ⟨[], Aabb3d.default⟩

/-- `HittableGroup::add`: fold the member's box into `bounds`, push the
member. -/
def HittableGroup.add (g : HittableGroup) (hittable : Hittable) : HittableGroup :=
  ⟨g.group ++ [hittable], Aabb3d.fromBounds g.bounds hittable.boundsOf⟩

/-- The `for` loop of `HittableGroup::hit`, carrying `nearest` and
`nearest_result`. -/
def groupHitLoop (sq : ℚ → ℚ) (imin : ℚ) (ray : Ray) :
    List Hittable → ℚ → Option HitResult → Option HitResult
  | [], _, nearestResult => nearestResult
  | hittable :: rest, nearest, nearestResult =>
    match Hittable.hit sq hittable ⟨imin, nearest⟩ ray with
    | some hitResult => groupHitLoop sq imin ray rest hitResult.t (some hitResult)
    | none => groupHitLoop sq imin ray rest nearest nearestResult

/-- `HittableGroup::hit`: scan all members, shrinking the search interval
to the nearest `t` found so far. -/
def HittableGroup.hit (sq : ℚ → ℚ) (g : HittableGroup) (interval : Interval)
    (ray : Ray) : Option HitResult :=
  groupHitLoop sq interval.min ray g.group interval.max none

/-- `Camera` (src/camera.rs). -/
structure Camera where
  background : Vec3f
  position : Vec3f
  dir : Vec3f
  pixelDx : Vec3f
  pixelDy : Vec3f
  pixelCorner : Vec3f
  deriving DecidableEq, Repr

/-- `Camera::raycast` (src/camera.rs lines 77-105); `rands` is the stream
of unit vectors `Vec3f::rand()` yields, indexed by the remaining depth. -/
def Camera.raycast (sq : ℚ → ℚ) (rands : ℕ → Vec3f) (cam : Camera) (ray : Ray)
    (world : HittableGroup) : ℕ → Vec3f
  | 0 => cam.background
  | depth + 1 =>
    match world.hit sq Interval.newRay ray with
    | some hitResult =>
      let emitted := hitResult.material.emit hitResult.u hitResult.v
      match hitResult.material.scatter (rands depth) ray hitResult with
      | some (attenuation, scattered) =>
        emitted + attenuation * Camera.raycast sq rands cam scattered world depth
      | none => emitted
    | none => cam.background

/-- Rust's saturating float-to-integer cast `as u8` applied to an `f64`
(Rust reference, "Type cast expressions"): round toward zero, then clamp
into `[0, 255]`.  For `x ≥ 0` truncation is `⌊x⌋`, and for `x < 0` both
truncation and `⌊x⌋` are sent to `0` by `Int.toNat`. -/
def asU8 (x : ℚ) : ℕ :=
  Min.min 255 (Int.floor x).toNat

/-- `Pixel` (src/main.rs): three 8-bit channels, as naturals `< 256`. -/
structure Pixel where
  r : ℕ
  g : ℕ
  b : ℕ
  deriving DecidableEq, Repr

/-- The per-pixel 8-bit conversion of the render worker (src/main.rs lines
82-86): `(color.{x,y,z} * 255.0) as u8`. -/
def pixelOfColor (color : Vec3f) : Pixel :=
  ⟨asU8 (color.x * 255), asU8 (color.y * 255), asU8 (color.z * 255)⟩

/-- The render worker's per-pixel sample average (src/main.rs lines 73-80):
accumulate the sampled radiance and divide by the sample count. -/
def averageColor (samples : List Vec3f) : Vec3f :=
  samples.foldl (fun color value => color + value) ⟨0, 0, 0⟩ /
    (samples.length : ℚ)

/-- Modelled from the spec: `clamp(value, 0, 255)` followed by the
narrowing integer conversion, the tone-map the spec prescribes for each
channel (already scaled by 255). -/
def clampNarrow (x : ℚ) : ℕ :=
  (Int.floor (Min.min 255 (Max.max 0 x))).toNat

/-- Modelled from the spec: the brute-force nearest-hit query over a
primitive set — each primitive queried on the full interval, keeping the
hit with the smallest `t`. -/
def bruteForceNearest (sq : ℚ → ℚ) (objects : List Hittable)
    (interval : Interval) (ray : Ray) : Option HitResult :=
  objects.foldl
    (fun best obj =>
      match Hittable.hit sq obj interval ray with
      | some hitResult =>
        match best with
        | some b => if hitResult.t < b.t then some hitResult else some b
        | none => some hitResult
      | none => best)
    none

/-- Modelled from the spec: the per-axis slab parameters
`t0, t1 = (bound - origin) / direction`, swapped when the direction
component is negative. -/
def slabPair (b : Aabb3d) (r : Ray) (a : Fin 3) : ℚ × ℚ :=
  let t0 := ((b.bound a).min - r.origin.nth a) / r.direction.nth a
  let t1 := ((b.bound a).max - r.origin.nth a) / r.direction.nth a
  if r.direction.nth a < 0 then (t1, t0) else (t0, t1)

/-- Modelled from the spec: the brute-force slab test — intersect the
query interval with the three per-axis slab intervals and test the result
non-empty under the strict comparison. -/
def bruteForceSlabHit (b : Aabb3d) (r : Ray) (interval : Interval) : Bool :=
  let lo := Max.max (Max.max (Max.max interval.min (slabPair b r 0).1)
    (slabPair b r 1).1) (slabPair b r 2).1
  let hi := Min.min (Min.min (Min.min interval.max (slabPair b r 0).2)
    (slabPair b r 1).2) (slabPair b r 2).2
  decide (lo < hi)

/-- Square-root oracle for the concrete scenes below: exact on the
discriminants and squared lengths that actually arise (1, 9, 16). -/
def sqEx : ℚ → ℚ := fun q =>
  if q = 9 then 3 else if q = 1 then 1 else if q = 16 then 4 else 0

/-- A unit direction with rational components. -/
def dirU : Vec3f := ⟨3 / 13, 4 / 13, 12 / 13⟩

/-- Ray from the origin along `dirU`. -/
def rayU : Ray := ⟨⟨0, 0, 0⟩, dirU⟩

/-- Ray from the origin along `+z`. -/
def rayZ : Ray := ⟨⟨0, 0, 0⟩, ⟨0, 0, 1⟩⟩

/-- An emissive material: `DiffuseLight` over a solid white-10 texture. -/
def matLight : Material := .diffuseLight (.solidColor ⟨10, 10, 10⟩)

/-- A gray metal material. -/
def matGray : Material := .metal (.solidColor ⟨4 / 5, 4 / 5, 4 / 5⟩)

/-- Unit sphere centred five units along `dirU` (hit at `t = 4`). -/
def sphereNear : Hittable := Sphere.new (dirU * (5 : ℚ)) 1 matGray

/-- Radius-3 sphere centred ten units along `dirU` (hit at `t = 7`); its
box minimum on axis 0 lies left of `sphereNear`'s. -/
def sphereFar : Hittable := Sphere.new (dirU * (10 : ℚ)) 3 matGray

/-- The two-object BVH the construction builds over the two spheres when
the random axis is 0: `sphereFar` becomes the left child. -/
def bvhEx : Hittable := Bvh.new2 0 sphereNear sphereFar

/-- Triangle in the plane `z = 5` facing the origin-based `+z` ray. -/
def triEx : Hittable :=
  Triangle.new ⟨-1, -1, 5⟩ ⟨0, 1, 5⟩ ⟨1, -1, 5⟩ ⟨0, 0⟩ ⟨0, 0⟩ ⟨0, 0⟩ matGray

/-- A group holding only `triEx`. -/
def groupTri : HittableGroup := HittableGroup.add HittableGroup.new triEx

/-- A world holding a single emissive sphere. -/
def worldLight : HittableGroup :=
  HittableGroup.add HittableGroup.new (Sphere.new (dirU * (5 : ℚ)) 1 matLight)

/-- A camera with black background (the scene constant `BACKGROUND`). -/
def camEx : Camera := ⟨⟨0, 0, 0⟩, ⟨0, 0, 0⟩, ⟨0, 0, 1⟩, ⟨0, 0, 0⟩, ⟨0, 0, 0⟩, ⟨0, 0, 0⟩⟩

/-- A degenerate random stream (never consumed on the tested paths). -/
def rands0 : ℕ → Vec3f := fun _ => ⟨0, 0, 0⟩

/-- Sphere whose cached box is `[1,2]` on every axis. -/
def sphereUnitBox : Hittable := Sphere.new ⟨3 / 2, 3 / 2, 3 / 2⟩ (1 / 2) matGray

/-- Fold a member list into a fresh group with `HittableGroup::add`. -/
def buildGroup (ms : List Hittable) : HittableGroup :=
  ms.foldl HittableGroup.add HittableGroup.new

/-- The hit the emissive sphere of `worldLight` produces on `rayU`. -/
def hrLight : HitResult :=
  ⟨⟨12 / 13, 16 / 13, 48 / 13⟩, ⟨-3 / 13, -4 / 13, -12 / 13⟩, 4, matLight, 0, 0⟩

/-- The hit `sphereNear` produces on `rayU`. -/
def hrNearGray : HitResult :=
  ⟨⟨12 / 13, 16 / 13, 48 / 13⟩, ⟨-3 / 13, -4 / 13, -12 / 13⟩, 4, matGray, 0, 0⟩

/-- Unfolding lemma for vector addition. -/
@[simp] theorem Vec3f.add_def (a b : Vec3f) :
    a + b = ⟨a.x + b.x, a.y + b.y, a.z + b.z⟩ := rfl

/-- Unfolding lemma for vector subtraction. -/
@[simp] theorem Vec3f.sub_def (a b : Vec3f) :
    a - b = ⟨a.x - b.x, a.y - b.y, a.z - b.z⟩ := rfl

/-- Unfolding lemma for the Hadamard product. -/
@[simp] theorem Vec3f.mul_def (a b : Vec3f) :
    a * b = ⟨a.x * b.x, a.y * b.y, a.z * b.z⟩ := rfl

/-- Unfolding lemma for the scalar product. -/
@[simp] theorem Vec3f.smul_def (a : Vec3f) (s : ℚ) :
    a * s = ⟨a.x * s, a.y * s, a.z * s⟩ := rfl

/-- Unfolding lemma for scalar division. -/
@[simp] theorem Vec3f.sdiv_def (a : Vec3f) (s : ℚ) :
    a / s = ⟨a.x / s, a.y / s, a.z / s⟩ := rfl

/-- Component access at axis 0. -/
@[simp] theorem Vec3f.nth_zero (v : Vec3f) : v.nth 0 = v.x := rfl

/-- Component access at axis 1. -/
@[simp] theorem Vec3f.nth_one (v : Vec3f) : v.nth 1 = v.y := rfl

/-- Component access at axis 2. -/
@[simp] theorem Vec3f.nth_two (v : Vec3f) : v.nth 2 = v.z := rfl

/-- Axis access at 0. -/
@[simp] theorem Aabb3d.bound_zero (b : Aabb3d) : b.bound 0 = b.b0 := rfl

/-- Axis access at 1. -/
@[simp] theorem Aabb3d.bound_one (b : Aabb3d) : b.bound 1 = b.b1 := rfl

/-- Axis access at 2. -/
@[simp] theorem Aabb3d.bound_two (b : Aabb3d) : b.bound 2 = b.b2 := rfl

/-- Unfolding lemma for `Uv` addition. -/
@[simp] theorem Uv.add_uv_def (a b : Uv) : a + b = ⟨a.u + b.u, a.v + b.v⟩ := rfl

/-- Unfolding lemma for the `Uv` scalar product. -/
@[simp] theorem Uv.smul_uv_def (a : Uv) (s : ℚ) : a * s = ⟨a.u * s, a.v * s⟩ := rfl

/-- C3: the claim says `contains(x)` is the closed test `min <= x && x <= max`.
The code's second conjunct is `self.max <= self.max`, which always holds, so
`contains` degenerates to the lower-bound test alone: on the interval `[0, 1]`
and `x = 5` (which is beyond `max = 1`, as `1 < 5` records) the code still
answers `true`.  The `surrounds` half of the claim does hold. -/
theorem interval_contains_typo :
    (∀ (i : Interval) (x : ℚ), Interval.surrounds i x = true ↔ i.min < x ∧ x < i.max) ∧
    (∀ (i : Interval) (x : ℚ), Interval.contains i x = true ↔ i.min ≤ x) ∧
    Interval.contains ⟨0, 1⟩ 5 = true ∧ (1 : ℚ) < 5 := by
  refine ⟨fun i x => ?_, fun i x => ?_, ?_, by norm_num⟩
  · simp [Interval.surrounds]
  · simp [Interval.contains]
  · norm_num [Interval.contains]

/-- C2: the claim says every `HitResult` a `HittableGroup::hit` query returns
has its `t` inside the query interval (and that the group answers `None` when
no member root lies in the interval).  Counter-evaluation: the group holding
the single triangle `triEx` (plane `z = 5`, hit by `rayZ` at `t = 5`),
queried on the interval `[0.000001, 1]`, returns a hit with `t = 5` even
though `1 < 5` — `Triangle::hit` bounds `t` only from below because of the
`Interval::contains` typo, so the claimed contract fails. -/
theorem group_hit_escapes_interval :
    (HittableGroup.hit sqEx groupTri ⟨1 / 1000000, 1⟩ rayZ).map HitResult.t = some 5 ∧
    (1 : ℚ) < 5 := by
  refine ⟨?_, by norm_num⟩
  norm_num [groupTri, triEx, Triangle.new, HittableGroup.add, HittableGroup.new,
    HittableGroup.hit, groupHitLoop, Hittable.hit, triangleHit, Interval.contains,
    Vec3f.dot, Vec3f.cross, Vec3f.unitS, Vec3f.lengthS, Vec3f.lengthsq, sqEx,
    rayZ, Ray.pointAt, matGray]

/-- C1: the claim says `Bvh::hit` always returns the globally nearest hit
of the primitive set under the node.  Counter-evaluation: `bvhEx` is the
node `Bvh::new` builds from `{sphereNear, sphereFar}` on axis 0 (the
two-object branch orders `sphereFar` as the left child because its box
minimum is smaller); on `rayU` the left child hits at `t = 7`, the right
child hits at `t = 4` inside the tightened interval `[0.000001, 7]`, yet
the query returns the left hit `t = 7`, while the brute-force nearest hit
over the same set is `t = 4`. -/
theorem bvh_hit_returns_left_not_nearest :
    bvhEx = Hittable.bvh (Aabb3d.fromBounds sphereFar.boundsOf sphereNear.boundsOf)
      sphereFar sphereNear ∧
    (Hittable.hit sqEx bvhEx Interval.newRay rayU).map HitResult.t = some 7 ∧
    (bruteForceNearest sqEx [sphereNear, sphereFar] Interval.newRay rayU).map
      HitResult.t = some 4 := by
  refine ⟨?_, ?_, ?_⟩
  · norm_num [bvhEx, Bvh.new2, Aabb3d.lt, sphereNear, sphereFar, Sphere.new,
      Hittable.boundsOf, Aabb3d.fromCorners, dirU]
  · norm_num [bvhEx, Bvh.new2, sphereNear, sphereFar, Sphere.new, Hittable.hit,
      sphereHit, sphereOc, sphereA, sphereHalfB, sphereCq, sphereDisc, sphereRoot0,
      sphereRoot1, sphereResult, Hittable.boundsOf, Aabb3d.lt, Aabb3d.fromBounds,
      Aabb3d.fromCorners, Interval.fromIntervals, Aabb3d.hit, aabbHitLoop,
      Interval.newRay, f64MAX, Interval.surrounds, Vec3f.dot, Vec3f.lengthsq, sqEx,
      dirU, rayU, Ray.pointAt, matGray]
  · norm_num [bruteForceNearest, sphereNear, sphereFar, Sphere.new, Hittable.hit,
      sphereHit, sphereOc, sphereA, sphereHalfB, sphereCq, sphereDisc, sphereRoot0,
      sphereRoot1, sphereResult, Interval.newRay, f64MAX, Interval.surrounds,
      Vec3f.dot, Vec3f.lengthsq, sqEx, dirU, rayU, Ray.pointAt, matGray]

/-- C5: the claim says the bounds accumulator is seeded with the inverted
empty sentinel (`min = +Inf, max = -Inf`) so group bounds equal exactly the
union of member bounds.  Counter-evaluation: `Aabb3d::default()` is the
degenerate zero box `[0,0]` on every axis, and adding the single member
`sphereUnitBox` (bounds `[1,2]` per axis) leaves group bounds `[0,2]`,
different from the members' union `[1,2]`. -/
theorem group_bounds_seed_not_sentinel :
    HittableGroup.new.bounds = Aabb3d.default ∧
    Aabb3d.default = ⟨⟨0, 0⟩, ⟨0, 0⟩, ⟨0, 0⟩⟩ ∧
    sphereUnitBox.boundsOf = ⟨⟨1, 2⟩, ⟨1, 2⟩, ⟨1, 2⟩⟩ ∧
    (HittableGroup.add HittableGroup.new sphereUnitBox).bounds
      = ⟨⟨0, 2⟩, ⟨0, 2⟩, ⟨0, 2⟩⟩ ∧
    ((⟨0, 2⟩ : Interval) ≠ ⟨1, 2⟩) := by
  refine ⟨rfl, rfl, ?_, ?_, by norm_num⟩
  · norm_num [sphereUnitBox, Sphere.new, Hittable.boundsOf, Aabb3d.fromCorners]
  · norm_num [HittableGroup.add, HittableGroup.new, sphereUnitBox, Sphere.new,
      Hittable.boundsOf, Aabb3d.fromBounds, Aabb3d.fromCorners, Aabb3d.default,
      Interval.fromIntervals]

/-- C8: `Camera::raycast` at `depth = 0` returns exactly the camera's
configured background color, for every square-root oracle, random stream,
camera, ray and world — in particular it never queries the scene. -/
theorem raycast_depth_zero (sq : ℚ → ℚ) (rands : ℕ → Vec3f) (cam : Camera)
    (ray : Ray) (world : HittableGroup) :
    Camera.raycast sq rands cam ray world 0 = cam.background := rfl

/-- C9: `DiffuseLight::scatter` returns nothing for every incoming ray and
hit, and whenever the nearest hit of a `raycast` with remaining depth at
least 1 has a material whose `scatter` returns nothing, the result is
exactly the material's emitted color `emit(u, v)` — no recursive term and
no background term is added. -/
theorem diffuse_light_terminates_path :
    (∀ (tex : Texture) (rand : Vec3f) (ray : Ray) (hitResult : HitResult),
      Material.scatter (.diffuseLight tex) rand ray hitResult = none) ∧
    (∀ (sq : ℚ → ℚ) (rands : ℕ → Vec3f) (cam : Camera) (ray : Ray)
      (world : HittableGroup) (depth : ℕ) (hitResult : HitResult),
      world.hit sq Interval.newRay ray = some hitResult →
      hitResult.material.scatter (rands depth) ray hitResult = none →
      Camera.raycast sq rands cam ray world (depth + 1)
        = hitResult.material.emit hitResult.u hitResult.v) := by
  constructor
  · intro tex rand ray hitResult
    rfl
  · intro sq rands cam ray world depth hitResult hhit hscat
    simp only [Camera.raycast, hhit, hscat]

/-- C9 witness: in the world holding the single emissive sphere of
`worldLight`, the camera ray `rayU` hits it at `t = 4` with material
`matLight`, whose `scatter` returns nothing, and a depth-5 `raycast`
returns exactly the light's emitted color `(10, 10, 10)`. -/
theorem diffuse_light_terminates_path_w :
    Camera.raycast sqEx rands0 camEx rayU worldLight 5 = ⟨10, 10, 10⟩ := by
  have h := diffuse_light_terminates_path.2 sqEx rands0 camEx rayU worldLight 4
    hrLight
    (by norm_num [worldLight, Sphere.new, HittableGroup.hit, HittableGroup.add,
      HittableGroup.new, groupHitLoop, Hittable.hit, sphereHit, sphereOc, sphereA,
      sphereHalfB, sphereCq, sphereDisc, sphereRoot0, sphereRoot1, sphereResult,
      Interval.newRay, f64MAX, Interval.surrounds, Vec3f.dot, Vec3f.lengthsq,
      sqEx, dirU, rayU, Ray.pointAt, matLight, hrLight])
    (by norm_num [hrLight, matLight, Material.scatter])
  exact h.trans (by norm_num [hrLight, matLight, Material.emit, Texture.value])

/-- C10: whenever `Sphere::hit` returns a hit, the parametric surface
coordinates of the returned `HitResult` are `u = 0` and `v = 0` — sphere
surface coordinates are never computed. -/
theorem sphere_hit_uv_zero (sq : ℚ → ℚ) (center : Vec3f) (radius : ℚ)
    (material : Material) (interval : Interval) (ray : Ray) (res : HitResult)
    (h : sphereHit sq center radius material interval ray = some res) :
    res.u = 0 ∧ res.v = 0 := by
  unfold sphereHit at h
  split_ifs at h <;> cases h <;> exact ⟨rfl, rfl⟩

/-- C10 witness: `sphereNear`'s geometry hit by `rayU` returns the concrete
result `hrNearGray` (with `t = 4`), and the theorem applied there yields
`u = 0` and `v = 0`. -/
theorem sphere_hit_uv_zero_w : hrNearGray.u = 0 ∧ hrNearGray.v = 0 :=
  sphere_hit_uv_zero sqEx (dirU * (5 : ℚ)) 1 matGray Interval.newRay rayU
    hrNearGray
    (by norm_num [sphereHit, sphereOc, sphereA, sphereHalfB, sphereCq, sphereDisc,
      sphereRoot0, sphereRoot1, sphereResult, Interval.newRay, f64MAX,
      Interval.surrounds, Vec3f.dot, Vec3f.lengthsq, sqEx, dirU, rayU,
      Ray.pointAt, matGray, hrNearGray])

/-- Evaluation of the saturating cast as the clamp-then-narrow form. -/
theorem asU8_eq_clampNarrow (x : ℚ) : asU8 x = clampNarrow x := by
  unfold asU8 clampNarrow
  rcases le_or_lt x 0 with hx | hx
  · rw [Int.toNat_of_nonpos (Int.floor_nonpos hx), max_eq_left hx,
      min_eq_right (by norm_num : (0 : ℚ) ≤ 255)]
    norm_num
  · rw [max_eq_right hx.le]
    rcases le_or_lt 255 x with hge | hlt
    · have h1 : (255 : ℤ) ≤ Int.floor x := Int.le_floor.mpr (by exact_mod_cast hge)
      rw [min_eq_left hge, (by norm_num : Int.floor (255 : ℚ) = 255)]
      exact min_eq_left (by omega)
    · have h3 : Int.floor x ≤ 255 := by
        have := Int.floor_le_floor hlt.le
        simpa using this
      rw [min_eq_right hlt.le]
      exact min_eq_right (by omega)

/-- The cast saturates upward at 255. -/
theorem asU8_saturates_high (y : ℚ) (h : 255 ≤ y) : asU8 y = 255 := by
  unfold asU8
  have h1 : (255 : ℤ) ≤ Int.floor y := Int.le_floor.mpr (by exact_mod_cast h)
  exact min_eq_left (by omega)

/-- The cast saturates downward at 0. -/
theorem asU8_saturates_low (y : ℚ) (h : y < 0) : asU8 y = 0 := by
  unfold asU8
  rw [Int.toNat_of_nonpos (Int.floor_nonpos h.le)]
  norm_num

/-- C4: each 8-bit channel the render worker emits for a pixel color is
`clamp(channel * 255, 0, 255)` narrowed to an integer; in particular a
channel above `1.0` saturates to 255 and a negative channel saturates to
0 — the `as u8` conversion does not wrap. -/
theorem render_tonemap_saturates (color : Vec3f) :
    (pixelOfColor color).r = clampNarrow (color.x * 255) ∧
    (pixelOfColor color).g = clampNarrow (color.y * 255) ∧
    (pixelOfColor color).b = clampNarrow (color.z * 255) ∧
    (1 < color.x → (pixelOfColor color).r = 255) ∧
    (color.x < 0 → (pixelOfColor color).r = 0) := by
  refine ⟨asU8_eq_clampNarrow _, asU8_eq_clampNarrow _, asU8_eq_clampNarrow _,
    fun h => asU8_saturates_high _ (by nlinarith), fun h => asU8_saturates_low _ (by nlinarith)⟩

/-- C4 witness: a channel of `2.0` saturates to 255 and a channel of
`-1.0` saturates to 0. -/
theorem render_tonemap_saturates_w :
    (pixelOfColor ⟨2, -1, 1 / 2⟩).r = 255 ∧ (pixelOfColor ⟨-1, 2, 1 / 2⟩).r = 0 :=
  ⟨(render_tonemap_saturates ⟨2, -1, 1 / 2⟩).2.2.2.1 (by norm_num),
   (render_tonemap_saturates ⟨-1, 2, 1 / 2⟩).2.2.2.2 (by norm_num)⟩

/-- Axis indexing commutes with the box hull. -/
theorem fromBounds_bound (x y : Aabb3d) (k : Fin 3) :
    (Aabb3d.fromBounds x y).bound k
      = Interval.fromIntervals (x.bound k) (y.bound k) := by
  fin_cases k <;> rfl

/-- The default box is the zero interval on every axis. -/
theorem default_bound (k : Fin 3) : Aabb3d.default.bound k = ⟨0, 0⟩ := by
  fin_cases k <;> rfl

/-- Folding `HittableGroup::add` accumulates the per-axis minimum of the
members' box minima into the seed's minimum. -/
theorem foldAdd_bounds_min (ms : List Hittable) (k : Fin 3) :
    ∀ g : HittableGroup, (((ms.foldl HittableGroup.add g).bounds).bound k).min
      = ms.foldl (fun acc h => Min.min acc ((h.boundsOf.bound k).min))
          ((g.bounds.bound k).min) := by
  induction ms with
  | nil => intro g; rfl
  | cons hd tl ih =>
    intro g
    simp only [List.foldl]
    rw [ih]
    congr 1
    simp [HittableGroup.add, fromBounds_bound, Interval.fromIntervals]

/-- Folding `HittableGroup::add` accumulates the per-axis maximum of the
members' box maxima into the seed's maximum. -/
theorem foldAdd_bounds_max (ms : List Hittable) (k : Fin 3) :
    ∀ g : HittableGroup, (((ms.foldl HittableGroup.add g).bounds).bound k).max
      = ms.foldl (fun acc h => Max.max acc ((h.boundsOf.bound k).max))
          ((g.bounds.bound k).max) := by
  induction ms with
  | nil => intro g; rfl
  | cons hd tl ih =>
    intro g
    simp only [List.foldl]
    rw [ih]
    congr 1
    simp [HittableGroup.add, fromBounds_bound, Interval.fromIntervals]

/-- Folding `HittableGroup::add` appends the members in order. -/
theorem foldAdd_group (ms : List Hittable) :
    ∀ g : HittableGroup, (ms.foldl HittableGroup.add g).group = g.group ++ ms := by
  induction ms with
  | nil => intro g; simp
  | cons hd tl ih =>
    intro g
    simp only [List.foldl]
    rw [ih]
    simp [HittableGroup.add]

/-- C5 amended: the accumulator is seeded with the degenerate zero box
`[0,0]` on every axis (not the inverted infinite sentinel), so after any
sequence of `HittableGroup::add` calls the group's bounds are, per axis,
the union of the zero interval with the members' bounds: the minimum is
the fold of `min` over the member minima started at `0`, the maximum the
fold of `max` over the member maxima started at `0`, and the member list
is exactly the added members in order. -/
theorem group_bounds_union_with_seed (ms : List Hittable) (k : Fin 3) :
    (((buildGroup ms).bounds).bound k).min
      = ms.foldl (fun acc h => Min.min acc ((h.boundsOf.bound k).min)) 0 ∧
    (((buildGroup ms).bounds).bound k).max
      = ms.foldl (fun acc h => Max.max acc ((h.boundsOf.bound k).max)) 0 ∧
    (buildGroup ms).group = ms := by
  refine ⟨?_, ?_, ?_⟩
  · have h := foldAdd_bounds_min ms k HittableGroup.new
    simpa [buildGroup, HittableGroup.new, default_bound] using h
  · have h := foldAdd_bounds_max ms k HittableGroup.new
    simpa [buildGroup, HittableGroup.new, default_bound] using h
  · have h := foldAdd_group ms HittableGroup.new
    simpa [buildGroup, HittableGroup.new] using h

/-- A parameter of the form `(-b ± s)/a` with `s * s = b * b - a * c` is a
root of the quadratic `a t² + 2 b t + c`. -/
theorem quadratic_root_identity (a b c s t : ℚ) (ha : a ≠ 0)
    (hss : s * s = b * b - a * c)
    (ht : t = (-b - s) / a ∨ t = (-b + s) / a) :
    a * t * t + 2 * b * t + c = 0 := by
  have hat : a * t = -b - s ∨ a * t = -b + s := by
    rcases ht with rfl | rfl
    · left; field_simp
    · right; field_simp
  have key : (a * t) * (a * t) + 2 * b * (a * t) + a * c = 0 := by
    rcases hat with h | h <;> rw [h] <;> linear_combination hss
  have h0 : a * (a * t * t + 2 * b * t + c) = 0 := by linear_combination key
  exact (mul_eq_zero.mp h0).resolve_left ha

/-- The squared distance from the sphere center to the ray point at `t`,
expanded through the quadratic's coefficients. -/
theorem sphere_point_expand (center : Vec3f) (ray : Ray) (t : ℚ) :
    (ray.pointAt t - center).lengthsq
      = sphereA ray * t * t + 2 * sphereHalfB center ray * t
        + (sphereOc center ray).lengthsq := by
  simp only [Ray.pointAt, sphereA, sphereHalfB, sphereOc, Vec3f.lengthsq,
    Vec3f.dot, Vec3f.add_def, Vec3f.sub_def, Vec3f.smul_def]
  ring

/-- A root of the sphere quadratic puts the ray point on the sphere. -/
theorem sphere_point_on (center : Vec3f) (radius : ℚ) (ray : Ray) (t : ℚ)
    (hroot : sphereA ray * t * t + 2 * sphereHalfB center ray * t
      + sphereCq center radius ray = 0) :
    (ray.pointAt t - center).lengthsq = radius * radius := by
  rw [sphere_point_expand]
  have hc : (sphereOc center ray).lengthsq
      = sphereCq center radius ray + radius * radius := by
    unfold sphereCq; ring
  rw [hc]
  linarith

/-- C6: for every sphere, interval and ray (with a nonzero-direction ray
and an exact square root at the discriminant), `Sphere::hit` returns
nothing when the discriminant is negative; otherwise both candidate
parameters are genuine roots of `|O + tD - C|² = r²`, the first candidate
is the smaller root, the hit prefers it when it lies strictly inside the
interval, falls back to the larger root when it does not, returns nothing
when neither does, and any returned normal is `(point - center)/radius`. -/
theorem sphere_hit_root_selection (sq : ℚ → ℚ) (center : Vec3f) (radius : ℚ)
    (material : Material) (interval : Interval) (ray : Ray)
    (ha : sphereA ray ≠ 0)
    (hsq : 0 ≤ sphereDisc center radius ray →
      0 ≤ sq (sphereDisc center radius ray) ∧
      sq (sphereDisc center radius ray) * sq (sphereDisc center radius ray)
        = sphereDisc center radius ray) :
    (sphereDisc center radius ray < 0 →
      sphereHit sq center radius material interval ray = none) ∧
    (0 ≤ sphereDisc center radius ray →
      sphereRoot0 sq center radius ray ≤ sphereRoot1 sq center radius ray ∧
      (ray.pointAt (sphereRoot0 sq center radius ray) - center).lengthsq
        = radius * radius ∧
      (ray.pointAt (sphereRoot1 sq center radius ray) - center).lengthsq
        = radius * radius ∧
      (interval.surrounds (sphereRoot0 sq center radius ray) = true →
        sphereHit sq center radius material interval ray
          = some (sphereResult center radius material ray
              (sphereRoot0 sq center radius ray))) ∧
      (interval.surrounds (sphereRoot0 sq center radius ray) = false →
        interval.surrounds (sphereRoot1 sq center radius ray) = true →
        sphereHit sq center radius material interval ray
          = some (sphereResult center radius material ray
              (sphereRoot1 sq center radius ray))) ∧
      (interval.surrounds (sphereRoot0 sq center radius ray) = false →
        interval.surrounds (sphereRoot1 sq center radius ray) = false →
        sphereHit sq center radius material interval ray = none)) ∧
    (∀ res, sphereHit sq center radius material interval ray = some res →
      res.normal = (res.point - center) / radius) := by
  have hnn : 0 ≤ sphereA ray := by
    unfold sphereA Vec3f.lengthsq
    have h1 := mul_self_nonneg ray.direction.x
    have h2 := mul_self_nonneg ray.direction.y
    have h3 := mul_self_nonneg ray.direction.z
    linarith
  have hapos : 0 < sphereA ray := lt_of_le_of_ne hnn (Ne.symm ha)
  refine ⟨?_, ?_, ?_⟩
  · intro hd
    unfold sphereHit
    rw [if_pos hd]
  · intro hd
    obtain ⟨hs0, hss⟩ := hsq hd
    have hss' : sq (sphereDisc center radius ray) * sq (sphereDisc center radius ray)
        = sphereHalfB center ray * sphereHalfB center ray
          - sphereA ray * sphereCq center radius ray := hss
    refine ⟨?_, ?_, ?_, ?_, ?_, ?_⟩
    · unfold sphereRoot0 sphereRoot1
      exact (div_le_div_iff_of_pos_right hapos).mpr (by linarith)
    · exact sphere_point_on center radius ray _
        (quadratic_root_identity _ _ _ _ _ ha hss' (Or.inl rfl))
    · exact sphere_point_on center radius ray _
        (quadratic_root_identity _ _ _ _ _ ha hss' (Or.inr rfl))
    · intro hsur0
      unfold sphereHit
      rw [if_neg (not_lt.mpr hd), if_pos hsur0]
    · intro hsur0 hsur1
      unfold sphereHit
      rw [if_neg (not_lt.mpr hd), if_neg (by simp [hsur0]), if_pos hsur1]
    · intro hsur0 hsur1
      unfold sphereHit
      rw [if_neg (not_lt.mpr hd), if_neg (by simp [hsur0]), if_neg (by simp [hsur1])]
  · intro res h
    unfold sphereHit at h
    split_ifs at h <;> cases h <;> rfl

/-- C6 witness: the unit sphere centred five units along `dirU`, queried
with `rayU` and the ray interval, has discriminant `1`; the theorem's
branch for the first root applies and returns the hit at `t = 4`, whose
point lies on the sphere. -/
theorem sphere_hit_root_selection_w :
    sphereHit sqEx (dirU * (5 : ℚ)) 1 matGray Interval.newRay rayU
      = some (sphereResult (dirU * (5 : ℚ)) 1 matGray rayU
          (sphereRoot0 sqEx (dirU * (5 : ℚ)) 1 rayU)) ∧
    (rayU.pointAt (sphereRoot0 sqEx (dirU * (5 : ℚ)) 1 rayU)
      - dirU * (5 : ℚ)).lengthsq = 1 := by
  have h := sphere_hit_root_selection sqEx (dirU * (5 : ℚ)) 1 matGray
    Interval.newRay rayU
    (by norm_num [sphereA, Vec3f.lengthsq, dirU, rayU])
    (fun _ => by
      norm_num [sphereDisc, sphereHalfB, sphereCq, sphereOc, sphereA,
        Vec3f.dot, Vec3f.lengthsq, dirU, rayU, sqEx])
  have h2 := h.2.1 (by
    norm_num [sphereDisc, sphereHalfB, sphereCq, sphereOc, sphereA,
      Vec3f.dot, Vec3f.lengthsq, dirU, rayU])
  refine ⟨h2.2.2.2.1 ?_, h2.2.1.trans (by norm_num)⟩
  norm_num [Interval.surrounds, sphereRoot0, sphereDisc, sphereHalfB, sphereCq,
    sphereOc, sphereA, Vec3f.dot, Vec3f.lengthsq, dirU, rayU, sqEx,
    Interval.newRay, f64MAX]

/-- The raise-the-lower-bound update of the slab loop is a `max`. -/
theorem ite_eq_max (x y : ℚ) : (if x < y then y else x) = Max.max x y := by
  rcases le_or_lt y x with h | h
  · rw [if_neg (not_lt.mpr h), max_eq_left h]
  · rw [if_pos h, max_eq_right h.le]

/-- The lower-the-upper-bound update of the slab loop is a `min`. -/
theorem ite_eq_min (x y : ℚ) : (if y < x then y else x) = Min.min x y := by
  rcases le_or_lt x y with h | h
  · rw [if_neg (not_lt.mpr h), min_eq_left h]
  · rw [if_pos h, min_eq_right h.le]

/-- The slab pair computed by the loop (reciprocal multiplication, swap on
negative reciprocal) equals the spec's slab pair (division, swap on
negative direction component). -/
theorem loop_pair_eq_slab (b : Aabb3d) (r : Ray) (k : Fin 3) :
    ((if 1 / r.direction.nth k < 0
        then (((b.bound k).max - r.origin.nth k) * (1 / r.direction.nth k),
              ((b.bound k).min - r.origin.nth k) * (1 / r.direction.nth k))
        else (((b.bound k).min - r.origin.nth k) * (1 / r.direction.nth k),
              ((b.bound k).max - r.origin.nth k) * (1 / r.direction.nth k))) : ℚ × ℚ)
      = slabPair b r k := by
  simp only [slabPair]
  by_cases h : r.direction.nth k < 0
  · rw [if_pos (one_div_neg.mpr h), if_pos h]
    simp [mul_one_div, div_eq_mul_inv]
  · rw [if_neg (fun hc => h (one_div_neg.mp hc)), if_neg h]
    simp [mul_one_div, div_eq_mul_inv]

/-- One iteration of the slab loop, rewritten through `slabPair`, `max`
and `min`. -/
theorem aabbHitLoop_cons (b : Aabb3d) (r : Ray) (k : Fin 3) (t : List (Fin 3))
    (imin imax : ℚ) :
    aabbHitLoop b r (k :: t) imin imax
      = if Min.min imax (slabPair b r k).2 ≤ Max.max imin (slabPair b r k).1
          then false
          else aabbHitLoop b r t (Max.max imin (slabPair b r k).1)
            (Min.min imax (slabPair b r k).2) := by
  simp only [aabbHitLoop]
  rw [loop_pair_eq_slab, ite_eq_max, ite_eq_min]

/-- The initial lower bound only grows along the fold. -/
theorem le_foldl_max (b : Aabb3d) (r : Ray) (ks : List (Fin 3)) :
    ∀ init : ℚ,
      init ≤ ks.foldl (fun acc a => Max.max acc (slabPair b r a).1) init := by
  induction ks with
  | nil => intro init; exact le_refl _
  | cons k t ih => intro init; exact le_trans (le_max_left _ _) (ih _)

/-- The initial upper bound only shrinks along the fold. -/
theorem foldl_min_le (b : Aabb3d) (r : Ray) (ks : List (Fin 3)) :
    ∀ init : ℚ,
      ks.foldl (fun acc a => Min.min acc (slabPair b r a).2) init ≤ init := by
  induction ks with
  | nil => intro init; exact le_refl _
  | cons k t ih => intro init; exact le_trans (ih _) (min_le_left _ _)

/-- The short-circuiting slab loop computes the strict non-emptiness test
of the globally intersected interval, whenever the running interval starts
non-degenerate. -/
theorem aabbHitLoop_eq_fold (b : Aabb3d) (r : Ray) :
    ∀ (ks : List (Fin 3)) (imin imax : ℚ), imin < imax →
      aabbHitLoop b r ks imin imax
        = decide (ks.foldl (fun acc a => Max.max acc (slabPair b r a).1) imin
            < ks.foldl (fun acc a => Min.min acc (slabPair b r a).2) imax) := by
  intro ks
  induction ks with
  | nil =>
    intro imin imax h
    simp [aabbHitLoop, h]
  | cons k t ih =>
    intro imin imax _
    rw [aabbHitLoop_cons]
    by_cases hc : Min.min imax (slabPair b r k).2 ≤ Max.max imin (slabPair b r k).1
    · rw [if_pos hc]
      have hnot : ¬ (t.foldl (fun acc a => Max.max acc (slabPair b r a).1)
            (Max.max imin (slabPair b r k).1)
          < t.foldl (fun acc a => Min.min acc (slabPair b r a).2)
            (Min.min imax (slabPair b r k).2)) :=
        not_lt.mpr (le_trans (foldl_min_le b r t _)
          (le_trans hc (le_foldl_max b r t _)))
      simp [List.foldl, hnot]
    · rw [if_neg hc]
      exact ih _ _ (lt_of_not_le hc)

/-- C7: `Aabb3d::hit` returns `true` exactly when the intersection of the
query interval with the three per-axis slab intervals (parameters
`(bound - origin)/direction`, swapped when the direction component is
negative) is non-empty under the strict test, i.e. it agrees with the
brute-force per-axis slab computation for every box, ray and interval —
degenerate and padded boxes included. -/
theorem aabb_hit_agrees_bruteforce (b : Aabb3d) (r : Ray) (interval : Interval) :
    Aabb3d.hit b r interval = bruteForceSlabHit b r interval := by
  unfold Aabb3d.hit bruteForceSlabHit
  rcases lt_or_le interval.min interval.max with h | h
  · rw [aabbHitLoop_eq_fold b r [0, 1, 2] _ _ h]
    simp [List.foldl]
  · rw [aabbHitLoop_cons]
    have hm : Min.min interval.max (slabPair b r 0).2
        ≤ Max.max interval.min (slabPair b r 0).1 :=
      le_trans (min_le_left _ _) (le_trans h (le_max_left _ _))
    rw [if_pos hm]
    have hfin : ¬ (Max.max (Max.max (Max.max interval.min (slabPair b r 0).1)
          (slabPair b r 1).1) (slabPair b r 2).1
        < Min.min (Min.min (Min.min interval.max (slabPair b r 0).2)
          (slabPair b r 1).2) (slabPair b r 2).2) := by
      have hlo : interval.min
          ≤ Max.max (Max.max (Max.max interval.min (slabPair b r 0).1)
              (slabPair b r 1).1) (slabPair b r 2).1 :=
        le_trans (le_max_left _ _) (le_trans (le_max_left _ _) (le_max_left _ _))
      have hhi : Min.min (Min.min (Min.min interval.max (slabPair b r 0).2)
            (slabPair b r 1).2) (slabPair b r 2).2 ≤ interval.max :=
        le_trans (min_le_left _ _) (le_trans (min_le_left _ _) (min_le_left _ _))
      exact not_lt.mpr (le_trans hhi (le_trans h hlo))
    simp [hfin]

end Raytracer
